import Mathlib

/-!
Verification of the pricesmurf repository: a shallow embedding, in Lean, of
the JSON extraction/repair utilities, the combine service's response parser,
the client-side margin pipeline orchestrator, and the persistence endpoints,
together with theorems settling the specification's claims about them.

Strings are modelled as `List Char` (JavaScript strings are sequences of
code units; all inputs of interest are plain BMP text).  JavaScript's
`JSON.parse` is modelled by `jsonParse` below, an executable recursive
descent parser for the RFC 8259 grammar that returns `none` where
`JSON.parse` throws.  JSON numbers are carried as exact rationals; no claim
depends on float rounding of numeric values.
-/

/- ### Character constants (code points, to keep the sources unambiguous) -/

def cLBrace : Char := Char.ofNat 123
def cRBrace : Char := Char.ofNat 125
def cLBrack : Char := Char.ofNat 91
def cRBrack : Char := Char.ofNat 93
def cDQuote : Char := Char.ofNat 34
def cSQuote : Char := Char.ofNat 39
def cBSlash : Char := Char.ofNat 92
def cSlash : Char := Char.ofNat 47
def cComma : Char := Char.ofNat 44
def cColon : Char := Char.ofNat 58
def cSpace : Char := Char.ofNat 32
def cTab : Char := Char.ofNat 9
def cLF : Char := Char.ofNat 10
def cCR : Char := Char.ofNat 13
def cFF : Char := Char.ofNat 12
def cVT : Char := Char.ofNat 11
def cBS : Char := Char.ofNat 8
def cBacktick : Char := Char.ofNat 96
def cMinus : Char := Char.ofNat 45
def cPlus : Char := Char.ofNat 43
def cDot : Char := Char.ofNat 46
def cNBSP : Char := Char.ofNat 160

/-- Whitespace accepted by `JSON.parse` between tokens: space, tab, LF, CR. -/
def jsonWs (c : Char) : Bool :=
  c = cSpace || c = cTab || c = cLF || c = cCR

/-- JavaScript regular-expression `\s` (and `String.prototype.trim`'s
whitespace): ASCII whitespace, NBSP, and the Unicode space separators. -/
def jsWs (c : Char) : Bool :=
  c = cSpace || c = cTab || c = cLF || c = cCR || c = cFF || c = cVT ||
  c = cNBSP || c.toNat = 0x1680 || (0x2000 ≤ c.toNat && c.toNat ≤ 0x200a) ||
  c.toNat = 0x2028 || c.toNat = 0x2029 || c.toNat = 0x202f ||
  c.toNat = 0x205f || c.toNat = 0x3000 || c.toNat = 0xfeff

/-- JavaScript line terminators (the characters `.` does not match in a
regular expression without the `s` flag). -/
def jsLineTerm (c : Char) : Bool :=
  c = cLF || c = cCR || c.toNat = 0x2028 || c.toNat = 0x2029

def isDigitC (c : Char) : Bool := 48 ≤ c.toNat && c.toNat ≤ 57

/- ### JSON values -/

/-- A parsed JSON value.  Numbers are exact rationals (no claim in this
development compares numeric values produced from distinct source texts, so
float rounding of `JSON.parse` is irrelevant to every statement below). -/
inductive Json where
  | null
  | bool (b : Bool)
  | num (q : ℚ)
  | str (s : String)
  | arr (elems : List Json)
  | obj (fields : List (String × Json))

/- ### A model of JavaScript `JSON.parse` -/

def skipJsonWs : List Char → List Char
  | c :: cs => if jsonWs c then skipJsonWs cs else c :: cs
  | [] => []

def hexDigitVal (c : Char) : Option Nat :=
  if 48 ≤ c.toNat && c.toNat ≤ 57 then some (c.toNat - 48)
  else if 97 ≤ c.toNat && c.toNat ≤ 102 then some (c.toNat - 87)
  else if 65 ≤ c.toNat && c.toNat ≤ 70 then some (c.toNat - 55)
  else none

/-- One-character JSON string escapes (`\uXXXX` is handled separately). -/
def jsonEscape (c : Char) : Option Char :=
  if c = cDQuote then some cDQuote
  else if c = cBSlash then some cBSlash
  else if c = cSlash then some cSlash
  else if c = 'b' then some cBS
  else if c = 'f' then some cFF
  else if c = 'n' then some cLF
  else if c = 'r' then some cCR
  else if c = 't' then some cTab
  else none

/-- Body of a JSON string after the opening quote.  Control characters below
U+0020 are rejected, as `JSON.parse` rejects them. -/
def jsonStrBody (acc : List Char) : List Char → Option (String × List Char)
  | [] => none
  | c :: cs =>
    if c = cDQuote then some (String.mk acc.reverse, cs)
    else if c = cBSlash then
      match cs with
      | [] => none
      | e :: cs2 =>
        if e = 'u' then
          match cs2 with
          | a :: b :: c3 :: d :: cs3 =>
            match hexDigitVal a, hexDigitVal b, hexDigitVal c3, hexDigitVal d with
            | some va, some vb, some vc, some vd =>
              jsonStrBody (Char.ofNat (((va * 16 + vb) * 16 + vc) * 16 + vd) :: acc) cs3
            | _, _, _, _ => none
          | _ => none
        else
          match jsonEscape e with
          | some ch => jsonStrBody (ch :: acc) cs2
          | none => none
    else if c.toNat < 32 then none
    else jsonStrBody (c :: acc) cs

def takeDigitsC : List Char → List Char × List Char
  | c :: cs =>
    if isDigitC c then
      let (ds, r) := takeDigitsC cs
      (c :: ds, r)
    else ([], c :: cs)
  | [] => ([], [])

def digitsToNat (ds : List Char) : Nat :=
  ds.foldl (fun acc c => acc * 10 + (c.toNat - 48)) 0

def pow10Q (e : Int) : ℚ :=
  if 0 ≤ e then ((10 : ℚ) ^ e.toNat) else 1 / ((10 : ℚ) ^ (-e).toNat)

/-- JSON number after an optional leading minus sign has been consumed:
`(0 | [1-9][0-9]*) ('.' [0-9]+)? ([eE] [+-]? [0-9]+)?`. -/
def jsonNumTail (neg : Bool) (cs : List Char) : Option (ℚ × List Char) :=
  match cs with
  | [] => none
  | c :: cs1 =>
    if ¬ isDigitC c then none
    else
      let (intDs, r1) :=
        if c.toNat = 48 then ([c], cs1)
        else
          let (ds, r) := takeDigitsC cs1
          (c :: ds, r)
      let fracStep : Option (Nat × Nat × List Char) :=
        match r1 with
        | d :: r2 =>
          if d = cDot then
            let (fds, r3) := takeDigitsC r2
            if fds.isEmpty then none else some (digitsToNat fds, fds.length, r3)
          else some (0, 0, r1)
        | [] => some (0, 0, r1)
      match fracStep with
      | none => none
      | some (fracVal, fracLen, r3) =>
        let expStep : Option (Int × List Char) :=
          match r3 with
          | e :: r4 =>
            if e = 'e' ∨ e = 'E' then
              let (sgn, r5) :=
                match r4 with
                | s :: r6 =>
                  if s = cPlus then ((1 : Int), r6)
                  else if s = cMinus then ((-1 : Int), r6)
                  else ((1 : Int), r4)
                | [] => ((1 : Int), r4)
              let (eds, r7) := takeDigitsC r5
              if eds.isEmpty then none else some (sgn * digitsToNat eds, r7)
            else some (0, r3)
          | [] => some (0, r3)
        match expStep with
        | none => none
        | some (expVal, rest) =>
          let mag : ℚ :=
            ((digitsToNat intDs : ℚ) + (fracVal : ℚ) / ((10 : ℚ) ^ fracLen)) * pow10Q expVal
          some ((if neg then -mag else mag), rest)

/-- Returns the remainder when `ks` is a prefix of `cs`; used for the
`true`/`false`/`null` keywords. -/
def expectWord : List Char → List Char → Option (List Char)
  | [], cs => some cs
  | _, [] => none
  | k :: ks, c :: cs => if c = k then expectWord ks cs else none

mutual

/-- One JSON value (leading whitespace allowed), by recursive descent.  The
fuel only bounds recursion; `jsonParse` supplies more than any input needs. -/
def jsonVal : Nat → List Char → Option (Json × List Char)
  | 0, _ => none
  | Nat.succ fuel, cs =>
    match skipJsonWs cs with
    | [] => none
    | c :: cs1 =>
      if c = cDQuote then
        match jsonStrBody [] cs1 with
        | some (s, rest) => some (Json.str s, rest)
        | none => none
      else if c = cLBrace then
        match skipJsonWs cs1 with
        | d :: cs2 =>
          if d = cRBrace then some (Json.obj [], cs2)
          else jsonMembers fuel [] (d :: cs2)
        | [] => none
      else if c = cLBrack then
        match skipJsonWs cs1 with
        | d :: cs2 =>
          if d = cRBrack then some (Json.arr [], cs2)
          else jsonItems fuel [] (d :: cs2)
        | [] => none
      else if c = 't' then
        match expectWord ['r', 'u', 'e'] cs1 with
        | some rest => some (Json.bool true, rest)
        | none => none
      else if c = 'f' then
        match expectWord ['a', 'l', 's', 'e'] cs1 with
        | some rest => some (Json.bool false, rest)
        | none => none
      else if c = 'n' then
        match expectWord ['u', 'l', 'l'] cs1 with
        | some rest => some (Json.null, rest)
        | none => none
      else if c = cMinus then
        match jsonNumTail true cs1 with
        | some (q, rest) => some (Json.num q, rest)
        | none => none
      else if isDigitC c then
        match jsonNumTail false (c :: cs1) with
        | some (q, rest) => some (Json.num q, rest)
        | none => none
      else none

/-- Members of an object, positioned at a key (after `{` and any space). -/
def jsonMembers : Nat → List (String × Json) → List Char → Option (Json × List Char)
  | 0, _, _ => none
  | Nat.succ fuel, acc, cs =>
    match skipJsonWs cs with
    | c :: cs1 =>
      if c = cDQuote then
        match jsonStrBody [] cs1 with
        | some (k, cs2) =>
          match skipJsonWs cs2 with
          | d :: cs3 =>
            if d = cColon then
              match jsonVal fuel cs3 with
              | some (v, cs4) =>
                match skipJsonWs cs4 with
                | e :: cs5 =>
                  if e = cComma then jsonMembers fuel ((k, v) :: acc) cs5
                  else if e = cRBrace then some (Json.obj ((k, v) :: acc).reverse, cs5)
                  else none
                | [] => none
              | none => none
            else none
          | [] => none
        | none => none
      else none
    | [] => none

/-- Items of an array, positioned at a value (after `[` and any space). -/
def jsonItems : Nat → List Json → List Char → Option (Json × List Char)
  | 0, _, _ => none
  | Nat.succ fuel, acc, cs =>
    match jsonVal fuel cs with
    | some (v, cs1) =>
      match skipJsonWs cs1 with
      | c :: cs2 =>
        if c = cComma then jsonItems fuel (v :: acc) cs2
        else if c = cRBrack then some (Json.arr (v :: acc).reverse, cs2)
        else none
      | [] => none
    | none => none

end

/-- Model of JavaScript `JSON.parse` on a whole string: one value surrounded
by optional whitespace; `none` where `JSON.parse` would throw. -/
def jsonParse (cs : List Char) : Option Json :=
  match jsonVal (2 * cs.length + 4) cs with
  | some (j, rest) => if (skipJsonWs rest).isEmpty then some j else none
  | none => none


/- ### The repair helpers of the margin endpoints (part_002 / part_003)

`tryParseJsonWithRepairs` in the source normalizes smart quotes and NBSP,
tries `JSON.parse`, then removes trailing commas before `}`/`]`, converts
single-quoted strings to double-quoted ones, quotes unquoted object keys,
and tries `JSON.parse` once more.  Each regex substitution is modelled by a
character-level scanner with the same left-to-right, non-overlapping global
replacement semantics as the corresponding JavaScript regex. -/

/-- Character map of the first substitutions: single smart quotes to `'`,
double smart quotes to `"`, NBSP to a space. -/
def normalizeQuoteChar (c : Char) : Char :=
  if c.toNat = 0x2018 || c.toNat = 0x2019 || c.toNat = 0x201a ||
     c.toNat = 0x201b || c.toNat = 0x2032 then cSQuote
  else if c.toNat = 0x201c || c.toNat = 0x201d || c.toNat = 0x201e ||
          c.toNat = 0x201f || c.toNat = 0x2033 then cDQuote
  else if c = cNBSP then cSpace
  else c

def normalizeQuotes (s : List Char) : List Char := s.map normalizeQuoteChar

/-- JavaScript `String.prototype.trim`. -/
def trimJS (s : List Char) : List Char :=
  ((s.dropWhile jsWs).reverse.dropWhile jsWs).reverse

/-- The global replacement of `,` plus whitespace, when followed by `}` or
`]`, with the empty string (regex `,\s*(?=[}\]])`, lookahead not consumed).
The counter only serves Lean's termination checker: every step consumes at
least one character, so `n + 1` fuel covers a scan of `n` characters and the
zero case is never reached. -/
def removeTrailingCommasF : Nat → List Char → List Char
  | 0, l => l
  | _ + 1, [] => []
  | fuel + 1, c :: rest =>
    if c = cComma then
      match rest.dropWhile jsWs with
      | d :: tail =>
        if d = cRBrace ∨ d = cRBrack then removeTrailingCommasF fuel (d :: tail)
        else c :: removeTrailingCommasF fuel rest
      | [] => c :: removeTrailingCommasF fuel rest
    else c :: removeTrailingCommasF fuel rest

def removeTrailingCommas (s : List Char) : List Char :=
  removeTrailingCommasF (s.length + 1) s

/-- Body of a single-quoted string per the regex
`[^'\\]*(\\.[^'\\]*)*` followed by a closing quote: ordinary characters, or
a backslash followed by any character other than a line terminator (the
`.`).  Returns the body and the remainder after the closing quote, or
`none` when no such match starts here. -/
def scanSQBody : List Char → Option (List Char × List Char)
  | [] => none
  | c :: rest =>
    if c = cSQuote then some ([], rest)
    else if c = cBSlash then
      match rest with
      | [] => none
      | d :: rest2 =>
        if jsLineTerm d then none
        else
          match scanSQBody rest2 with
          | some (b, r) => some (c :: d :: b, r)
          | none => none
    else
      match scanSQBody rest with
      | some (b, r) => some (c :: b, r)
      | none => none

/-- The replacement callback's `p1.replace(/"/g, '\\"')`. -/
def escapeDQ (b : List Char) : List Char :=
  b.flatMap (fun c => if c = cDQuote then [cBSlash, cDQuote] else [c])

/-- The global replacement of single-quoted strings by double-quoted ones
(inner double quotes escaped); fuel as in `removeTrailingCommasF`. -/
def singleToDoubleF : Nat → List Char → List Char
  | 0, l => l
  | _ + 1, [] => []
  | fuel + 1, c :: rest =>
    if c = cSQuote then
      match scanSQBody rest with
      | some (body, rest2) =>
        cDQuote :: (escapeDQ body ++ cDQuote :: singleToDoubleF fuel rest2)
      | none => c :: singleToDoubleF fuel rest
    else c :: singleToDoubleF fuel rest

def singleToDouble (s : List Char) : List Char :=
  singleToDoubleF (s.length + 1) s

/-- The character class `[A-Za-z0-9_@$\-]` of the unquoted-key regex. -/
def isIdentKeyChar (c : Char) : Bool :=
  isDigitC c || (65 ≤ c.toNat && c.toNat ≤ 90) || (97 ≤ c.toNat && c.toNat ≤ 122) ||
  c.toNat = 95 || c.toNat = 64 || c.toNat = 36 || c = cMinus

/-- The global replacement `([{,]\s*)([A-Za-z0-9_@$\-]+)\s*:` by
`$1"$2":`, quoting unquoted object keys; fuel as in
`removeTrailingCommasF`. -/
def quoteKeysF : Nat → List Char → List Char
  | 0, l => l
  | _ + 1, [] => []
  | fuel + 1, c :: rest =>
    if c = cLBrace ∨ c = cComma then
      let r1 := rest.dropWhile jsWs
      let ident := r1.takeWhile isIdentKeyChar
      if ident.isEmpty then c :: quoteKeysF fuel rest
      else
        match (r1.dropWhile isIdentKeyChar).dropWhile jsWs with
        | d :: r4 =>
          if d = cColon then
            c :: (rest.takeWhile jsWs ++ cDQuote :: ident ++ [cDQuote, cColon]) ++
              quoteKeysF fuel r4
          else c :: quoteKeysF fuel rest
        | [] => c :: quoteKeysF fuel rest
    else c :: quoteKeysF fuel rest

def quoteKeys (s : List Char) : List Char :=
  quoteKeysF (s.length + 1) s

/-- Model of `tryParseJsonWithRepairs` of part_002/part_003: normalize quotes and
NBSP, trim, try a direct parse; then remove trailing commas, convert
single-quoted strings, quote unquoted keys, and parse once more.  `none`
models its `null`. -/
def tryParseJsonWithRepairs (candidate : List Char) : Option Json :=
  let s := trimJS (normalizeQuotes candidate)
  match jsonParse s with
  | some j => some j
  | none =>
    let s2 := quoteKeys (singleToDouble (removeTrailingCommas s))
    jsonParse s2

/- ### extractFirstJsonObj (part_002 lines 156-215, part_003 lines 65-113) -/

/-- JavaScript truthiness of a parsed JSON value (`if (repaired) ...`). -/
def jsTruthy : Json → Bool
  | Json.null => false
  | Json.bool b => b
  | Json.num q => decide (q ≠ 0)
  | Json.str s => decide (s ≠ "")
  | Json.arr _ => true
  | Json.obj _ => true

/-- What one closing-brace candidate yields in the scan of
`extractFirstJsonObj`: the direct `JSON.parse` result is returned
unconditionally; a repaired parse is returned only when truthy
(`if (repaired) return repaired`), otherwise the scan continues. -/
def parseOrRepair (cand : List Char) : Option Json :=
  match jsonParse cand with
  | some j => some j
  | none =>
    match tryParseJsonWithRepairs cand with
    | some j => if jsTruthy j then some j else none
    | none => none

/-- The scanning loop of `extractFirstJsonObj`, started at the first `{`
with `inString = false`, `escape = false`, `depth = 0`, and the consumed
characters (reversed) in `acc`.  A backslash sets `escape` so the next
character is skipped; a double quote toggles `inString`; braces count only
outside strings; when `depth` returns to `0` at a `}` the candidate
`text.slice(firstOpen, i + 1)` is parsed, and on failure the scan
continues.  `depth` is an integer, as in JavaScript, so a stray `}` after a
balanced prefix drives it negative. -/
def scanGo : List Char → Bool → Bool → Int → List Char → Option Json
  | [], _, _, _, _ => none
  | c :: rs, inStr, esc, depth, acc =>
    if esc then scanGo rs inStr false depth (c :: acc)
    else if c = cBSlash then scanGo rs inStr true depth (c :: acc)
    else if c = cDQuote then scanGo rs (!inStr) false depth (c :: acc)
    else if inStr then scanGo rs inStr false depth (c :: acc)
    else if c = cLBrace then scanGo rs inStr false (depth + 1) (c :: acc)
    else if c = cRBrace then
      if depth - 1 = 0 then
        match parseOrRepair ((c :: acc).reverse) with
        | some j => some j
        | none => scanGo rs inStr false (depth - 1) (c :: acc)
      else scanGo rs inStr false (depth - 1) (c :: acc)
    else scanGo rs inStr false depth (c :: acc)

/-- The candidate substrings the scan would try, in order: for each position
where the running depth (same string/escape discipline as `scanGo`) returns
to zero at a `}`, the substring from the first `{` through that position. -/
def collectCands : List Char → Bool → Bool → Int → List Char → List (List Char)
  | [], _, _, _, _ => []
  | c :: rs, inStr, esc, depth, acc =>
    if esc then collectCands rs inStr false depth (c :: acc)
    else if c = cBSlash then collectCands rs inStr true depth (c :: acc)
    else if c = cDQuote then collectCands rs (!inStr) false depth (c :: acc)
    else if inStr then collectCands rs inStr false depth (c :: acc)
    else if c = cLBrace then collectCands rs inStr false (depth + 1) (c :: acc)
    else if c = cRBrace then
      if depth - 1 = 0 then
        (c :: acc).reverse :: collectCands rs inStr false (depth - 1) (c :: acc)
      else collectCands rs inStr false (depth - 1) (c :: acc)
    else collectCands rs inStr false depth (c :: acc)

/-- One step of the scan state `(inString, escape, depth)` on one character,
as a pure fold (used to characterize the candidates declaratively). -/
def scanStep : (Bool × Bool × Int) → Char → (Bool × Bool × Int) :=
  fun st c =>
    match st with
    | (inStr, esc, d) =>
      if esc then (inStr, false, d)
      else if c = cBSlash then (inStr, true, d)
      else if c = cDQuote then (!inStr, false, d)
      else if inStr then (inStr, false, d)
      else if c = cLBrace then (inStr, false, d + 1)
      else if c = cRBrace then (inStr, false, d - 1)
      else (inStr, false, d)

/-- The scan state after a prefix, from the initial state. -/
def scanState (p : List Char) : Bool × Bool × Int := p.foldl scanStep (false, false, 0)

/-- The character `c`, read after prefix `q`, is a `\x7d` that the scan
counts (outside a string, not escaped) and that returns the depth to zero. -/
def closesTopLevel (q : List Char) (c : Char) : Bool :=
  !(scanState q).1 && !(scanState q).2.1 && (c == cRBrace) && ((scanState q).2.2 == 1)

/-- The declarative candidate list: for every position `i` of `t` whose
character closes a top-level brace (per the fold state of the prefix before
it), the prefix of `t` through `i`. -/
def specCandidatesOf (t : List Char) : List (List Char) :=
  (List.range t.length).filterMap (fun i =>
    match t[i]? with
    | some c => if closesTopLevel (t.take i) c then some (t.take (i + 1)) else none
    | none => none)


def firstSome : List (Option Json) → Option Json
  | [] => none
  | o :: rest =>
    match o with
    | some j => some j
    | none => firstSome rest

/-- Model of `text.indexOf` of the opening brace: the suffix of `text`
starting at the first `\x7b`. -/
def dropToBrace : List Char → Option (List Char)
  | [] => none
  | c :: rs => if c = cLBrace then some (c :: rs) else dropToBrace rs

/-- The regex fallback `\{[\s\S]*\}` (greedy): the substring from the first
`{` to the last `}`, when the latter comes after the former. -/
def braceSpanFallback (text : List Char) : Option (List Char) :=
  match dropToBrace text with
  | none => none
  | some t =>
    match t.reverse.dropWhile (fun c => !(c == cRBrace)) with
    | [] => none
    | r => some r.reverse

/-- Model of `extractFirstJsonObj` of part_002/part_003: scan from the first `{`;
when the scan returns nothing, repair the first-`{`-to-last-`}` span; when
there is no `{` at all, the same regex fallback cannot match and the result
is `null`. -/
def extractFirstJsonObj (text : List Char) : Option Json :=
  match dropToBrace text with
  | none =>
    match braceSpanFallback text with
    | some m => tryParseJsonWithRepairs m
    | none => none
  | some t =>
    match scanGo t false false 0 [] with
    | some j => some j
    | none =>
      match braceSpanFallback text with
      | some m => tryParseJsonWithRepairs m
      | none => none

/-- The candidates of the scan, from the whole input text, stated
declaratively: the prefixes of the suffix at the first `\x7b` that end at a
depth-zero closing brace. -/
def extractCandidates (text : List Char) : List (List Char) :=
  match dropToBrace text with
  | none => []
  | some t => specCandidatesOf t

/-- The amended claim, as a definition following its words: try, in scan
order, each substring that starts at the first `{` and ends where the brace
depth returns to zero (direct parse first, repaired parse second); when all
fail, repair the substring from the first `{` to the last `}`; `null` when
everything fails. -/
def extractFirstJsonObjSpec (text : List Char) : Option Json :=
  match firstSome ((extractCandidates text).map parseOrRepair) with
  | some j => some j
  | none =>
    match braceSpanFallback text with
    | some m => tryParseJsonWithRepairs m
    | none => none

theorem scanGo_eq_firstSome :
    ∀ (rs : List Char) (inStr esc : Bool) (depth : Int) (acc : List Char),
      scanGo rs inStr esc depth acc =
        firstSome ((collectCands rs inStr esc depth acc).map parseOrRepair) := by
  intro rs
  induction rs with
  | nil => intro inStr esc depth acc; rfl
  | cons c rest ih =>
    intro inStr esc depth acc
    unfold scanGo collectCands
    split_ifs with h1 h2 h3 h4 h5 h6 h7
    · exact ih ..
    · exact ih ..
    · exact ih ..
    · exact ih ..
    · exact ih ..
    · simp only [List.map_cons, firstSome]
      cases hp : parseOrRepair ((c :: acc).reverse) with
      | some j => simp [hp]
      | none => simp [hp, ih]
    · exact ih ..
    · exact ih ..

theorem scanState_append (q : List Char) (c : Char) :
    scanState (q ++ [c]) = scanStep (scanState q) c := by
  simp [scanState, List.foldl_append]

theorem collectCands_eq_spec :
    ∀ (rs acc : List Char),
      collectCands rs (scanState acc.reverse).1 (scanState acc.reverse).2.1
          (scanState acc.reverse).2.2 acc =
        (List.range rs.length).filterMap (fun i =>
          match rs[i]? with
          | some c =>
            if closesTopLevel (acc.reverse ++ rs.take i) c then
              some (acc.reverse ++ rs.take (i + 1))
            else none
          | none => none) := by
  intro rs
  induction rs with
  | nil => intro acc; simp [collectCands, List.range]
  | cons c rs' ih =>
    intro acc
    have hstep : scanState ((c :: acc).reverse) = scanStep (scanState acc.reverse) c := by
      rw [List.reverse_cons, scanState_append]
    have ih' := ih (c :: acc)
    rw [hstep] at ih'
    have hsplit :
        (List.range (c :: rs').length).filterMap (fun i =>
          match (c :: rs')[i]? with
          | some d =>
            if closesTopLevel (acc.reverse ++ (c :: rs').take i) d then
              some (acc.reverse ++ (c :: rs').take (i + 1))
            else none
          | none => none) =
        (match (if closesTopLevel acc.reverse c then
                  some (acc.reverse ++ [c])
                else none) with
         | some x => x :: ((List.range rs'.length).filterMap (fun i =>
            match rs'[i]? with
            | some d =>
              if closesTopLevel ((c :: acc).reverse ++ rs'.take i) d then
                some ((c :: acc).reverse ++ rs'.take (i + 1))
              else none
            | none => none))
         | none => (List.range rs'.length).filterMap (fun i =>
            match rs'[i]? with
            | some d =>
              if closesTopLevel ((c :: acc).reverse ++ rs'.take i) d then
                some ((c :: acc).reverse ++ rs'.take (i + 1))
              else none
            | none => none)) := by
      rw [List.length_cons, List.range_succ_eq_map, List.filterMap_cons, List.filterMap_map]
      simp only [Function.comp_def, Nat.succ_eq_add_one, List.getElem?_cons_zero,
        List.getElem?_cons_succ, List.take_zero, List.take_succ_cons, List.append_nil,
        List.reverse_cons, List.append_assoc, List.cons_append, List.nil_append,
        List.singleton_append]
      cases closesTopLevel acc.reverse c <;> rfl
    rw [hsplit]
    clear hsplit
    unfold collectCands
    cases hC : closesTopLevel acc.reverse c with
    | false =>
      simp only [Bool.false_eq_true, if_false]
      have hC2 := hC
      simp only [closesTopLevel, Bool.and_eq_false_iff, Bool.not_eq_true,
        beq_iff_eq, beq_eq_false_iff_ne] at hC2
      split_ifs with h1 h2 h3 h4 h5 h6 h7
      · have hs : scanStep (scanState acc.reverse) c =
            ((scanState acc.reverse).1, false, (scanState acc.reverse).2.2) := by
          simp [scanStep, h1]
        rw [hs] at ih'
        exact ih'
      · have hs : scanStep (scanState acc.reverse) c =
            ((scanState acc.reverse).1, true, (scanState acc.reverse).2.2) := by
          simp [scanStep, h1, h2]
        rw [hs] at ih'
        exact ih'
      · have hs : scanStep (scanState acc.reverse) c =
            (!(scanState acc.reverse).1, false, (scanState acc.reverse).2.2) := by
          have hx : ¬ cDQuote = cBSlash := by decide
          simp [scanStep, h1, h2, h3, hx]
        rw [hs] at ih'
        exact ih'
      · have hs : scanStep (scanState acc.reverse) c =
            ((scanState acc.reverse).1, false, (scanState acc.reverse).2.2) := by
          simp [scanStep, h1, h2, h3, h4]
        rw [hs] at ih'
        exact ih'
      · have hs : scanStep (scanState acc.reverse) c =
            ((scanState acc.reverse).1, false, (scanState acc.reverse).2.2 + 1) := by
          have hx : ¬ cLBrace = cBSlash := by decide
          have hy : ¬ cLBrace = cDQuote := by decide
          simp [scanStep, h1, h2, h3, h4, h5, hx, hy]
        rw [hs] at ih'
        exact ih'
      · exfalso
        rcases hC2 with ((hC2 | hC2) | hC2) | hC2
        · simp [h4] at hC2
        · simp [h1] at hC2
        · exact hC2 h6
        · omega
      · have hs : scanStep (scanState acc.reverse) c =
            ((scanState acc.reverse).1, false, (scanState acc.reverse).2.2 - 1) := by
          have hx : ¬ cRBrace = cBSlash := by decide
          have hy : ¬ cRBrace = cDQuote := by decide
          have hz : ¬ cRBrace = cLBrace := by decide
          simp [scanStep, h1, h4, h6, hx, hy, hz]
        rw [hs] at ih'
        exact ih'
      · have hs : scanStep (scanState acc.reverse) c =
            ((scanState acc.reverse).1, false, (scanState acc.reverse).2.2) := by
          simp [scanStep, h1, h2, h3, h4, h5, h6]
        rw [hs] at ih'
        exact ih'
    | true =>
      simp only [if_true]
      have hC2 := hC
      simp only [closesTopLevel, Bool.and_eq_true, Bool.not_eq_true', beq_iff_eq] at hC2
      obtain ⟨⟨⟨hstr, hesc⟩, hcr⟩, hd⟩ := hC2
      rw [if_neg (by simp [hesc]), if_neg ?hb, if_neg ?hq, if_neg (by simp [hstr]),
        if_neg ?hl, if_pos (by simp [hcr]), if_pos (by omega)]
      case hb =>
        rw [hcr]
        decide
      case hq =>
        rw [hcr]
        decide
      case hl =>
        rw [hcr]
        decide
      have hs : scanStep (scanState acc.reverse) c =
          ((scanState acc.reverse).1, false, (scanState acc.reverse).2.2 - 1) := by
        have hb : ¬ (cRBrace = cBSlash) := by decide
        have hq2 : ¬ (cRBrace = cDQuote) := by decide
        have hl2 : ¬ (cRBrace = cLBrace) := by decide
        simp [scanStep, hesc, hstr, hcr, hb, hq2, hl2]
      rw [hs] at ih'
      simp only [List.reverse_cons]
      rw [ih']
      simp only [List.reverse_cons]

theorem collectCands_eq_specCandidatesOf (t : List Char) :
    collectCands t false false 0 [] = specCandidatesOf t := by
  have h := collectCands_eq_spec t []
  simpa [specCandidatesOf, scanState] using h

/-- C1 (amended): for every input, `extractFirstJsonObj` scans from the
first `{`, treating braces inside double-quoted strings and characters
preceded by a backslash as non-structural, and returns the first direct or
repaired parse among the substrings that start at the first `{` and end
where the depth returns to zero; when all of those fail it returns the
repaired parse of the substring from the first `{` to the last `}`, and it
returns `null` (never throwing) exactly when all of these candidates fail.
(The claim as frozen — that the candidates are all balanced object
substrings, so that `null` implies no brace-delimited substring parses — is
refuted by `C1_extractFirstJsonObj_cex` below.) -/
theorem C1_extractFirstJsonObj_amended :
    ∀ text, extractFirstJsonObj text = extractFirstJsonObjSpec text := by
  intro text
  unfold extractFirstJsonObj extractFirstJsonObjSpec extractCandidates
  cases h : dropToBrace text with
  | none => simp [firstSome]
  | some t =>
    dsimp only
    rw [scanGo_eq_firstSome, collectCands_eq_specCandidatesOf]

/-- C1 counterexample: on the input `{bad} {"a":1}` the function returns
`null`, although the brace-delimited substring `{"a":1}` of the input
parses directly (no repairs needed) — because every candidate the scan
tries starts at the first `{`. -/
theorem C1_extractFirstJsonObj_cex :
    (extractFirstJsonObj ("\x7bbad\x7d \x7b\"a\":1\x7d".data)).isNone = true ∧
    (jsonParse ("\x7b\"a\":1\x7d".data)).isSome = true ∧
    List.IsInfix ("\x7b\"a\":1\x7d".data) ("\x7bbad\x7d \x7b\"a\":1\x7d".data) := by
  refine ⟨?_, ?_, ?_⟩
  · rfl
  · rfl
  · decide

/- ### parseAIResponse of the combine service (combine/route.js lines 31-130)

The function strips ``` code fences, trims, and tries in order: a direct
`JSON.parse`; the `[`-to-`]` substring with seven bracket/comma fixes;
NDJSON parsing (joined when the first line starts with `[`, otherwise line
by line); regex extraction of objects (`\{[\s\S]*?\}` with a lookahead for
the next `{` or the end); finally wrapping a single parsed value in an
array.  It throws on non-string input and when everything fails. -/


def stripFencesF : Nat → List Char → List Char
  | 0, l => l
  | _ + 1, [] => []
  | fuel + 1, c1 :: rest1 =>
    match rest1 with
    | c2 :: c3 :: rest =>
      if c1 = cBacktick ∧ c2 = cBacktick ∧ c3 = cBacktick then
        match rest with
        | j :: s :: o :: n :: rest2 =>
          if j = 'j' ∧ s = 's' ∧ o = 'o' ∧ n = 'n' then stripFencesF fuel rest2
          else stripFencesF fuel rest
        | _ => stripFencesF fuel rest
      else c1 :: stripFencesF fuel (c2 :: c3 :: rest)
    | _ => c1 :: rest1

def stripFences (s : List Char) : List Char := stripFencesF (s.length + 1) s

def firstIdxOf (ch : Char) : List Char → Option Nat
  | [] => none
  | c :: rs => if c = ch then some 0 else (firstIdxOf ch rs).map (· + 1)

def lastIdxOf (ch : Char) (l : List Char) : Option Nat :=
  (firstIdxOf ch l.reverse).map (fun i => l.length - 1 - i)

def arrayCandidate (clean : List Char) : List Char :=
  match firstIdxOf cLBrack clean, lastIdxOf cRBrack clean with
  | some s, some e => if s < e then (clean.drop s).take (e + 1 - s) else clean.drop s
  | some s, none => clean.drop s
  | none, _ => clean

def dropTrailingWs (l : List Char) : List Char := (l.reverse.dropWhile jsWs).reverse

def stripTrailingCommaWs (l : List Char) : List Char :=
  let t := dropTrailingWs l
  if t.getLast? = some cComma then t.dropLast else l

def stripTrailingRBrackWs (l : List Char) : List Char :=
  let t := dropTrailingWs l
  if t.getLast? = some cRBrack then t.dropLast else l

def closeTrailingRBrace (l : List Char) : List Char :=
  let t := dropTrailingWs l
  if t.getLast? = some cRBrace then t ++ [cRBrack] else l

def arrayFixAttempts (clean : List Char) : List (List Char) :=
  let candidate := arrayCandidate clean
  [candidate,
   candidate ++ [cRBrack],
   cLBrack :: (candidate ++ [cRBrack]),
   stripTrailingCommaWs candidate ++ [cRBrack],
   stripTrailingCommaWs candidate,
   stripTrailingRBrackWs candidate ++ [cRBrack],
   closeTrailingRBrace candidate]

def arrayFixResult (clean : List Char) : Option Json :=
  firstSome ((arrayFixAttempts clean).map jsonParse)

def splitOnNL : List Char → List (List Char)
  | [] => [[]]
  | c :: rs =>
    if c = cLF then [] :: splitOnNL rs
    else
      match splitOnNL rs with
      | x :: xs => (c :: x) :: xs
      | [] => [[c]]

def ndjsonLines (clean : List Char) : List (List Char) :=
  ((splitOnNL clean).map trimJS).filter
    (fun l =>
      match l with
      | [] => false
      | c :: _ => c = cLBrace || c = cLBrack)

def collapseBracketsF : Nat → List Char → List Char
  | 0, l => l
  | _ + 1, [] => []
  | fuel + 1, c :: rest =>
    if c = cRBrack then
      match rest.dropWhile jsWs with
      | d :: tail =>
        if d = cLBrack then cComma :: collapseBracketsF fuel tail
        else c :: collapseBracketsF fuel rest
      | [] => c :: collapseBracketsF fuel rest
    else c :: collapseBracketsF fuel rest

def collapseBrackets (l : List Char) : List Char := collapseBracketsF (l.length + 1) l

def fixLineEnd (l : List Char) : List Char :=
  if l.getLast? = some cRBrace then
    let v := dropTrailingWs l.dropLast
    if v.getLast? = some cComma then v.dropLast ++ [cRBrace] else l
  else l

def ndjsonResult (clean : List Char) : Option Json :=
  match ndjsonLines clean with
  | [] => none
  | l0 :: rest =>
    if l0.head? = some cLBrack then
      jsonParse (collapseBrackets ((l0 :: rest).flatten))
    else
      let objs := (l0 :: rest).filterMap (fun l => jsonParse (fixLineEnd l))
      if objs.isEmpty then none else some (Json.arr objs)

def lookaheadOk (l : List Char) : Bool :=
  match l.dropWhile jsWs with
  | [] => true
  | c :: _ => c = cLBrace

def findCloseFrom : List Char → List Char → Option (List Char × List Char)
  | _, [] => none
  | acc, c :: rs =>
    if c = cRBrace ∧ lookaheadOk rs then some ((c :: acc).reverse, rs)
    else findCloseFrom (c :: acc) rs

def objMatchesF : Nat → List Char → List (List Char)
  | 0, _ => []
  | fuel + 1, l =>
    match dropToBrace l with
    | none => []
    | some [] => []
    | some (c :: rest) =>
      match findCloseFrom [c] rest with
      | some (m, rem) => m :: objMatchesF fuel rem
      | none => []

def objMatches (l : List Char) : List (List Char) := objMatchesF (l.length + 1) l

def regexObjResult (clean : List Char) : Option Json :=
  let objs := (objMatches clean).filterMap jsonParse
  if objs.isEmpty then none else some (Json.arr objs)

inductive JsInput where
  | str (s : List Char)
  | nonString

inductive ParseErr where
  | notAString
  | failedToParse
deriving DecidableEq

def parseAIResponse : JsInput → Except ParseErr Json
  | JsInput.nonString => Except.error ParseErr.notAString
  | JsInput.str response =>
    let clean := trimJS (stripFences response)
    match jsonParse clean with
    | some v => Except.ok v
    | none =>
      match arrayFixResult clean with
      | some v => Except.ok v
      | none =>
        match ndjsonResult clean with
        | some v => Except.ok v
        | none =>
          match regexObjResult clean with
          | some v => Except.ok v
          | none =>
            match jsonParse clean with
            | some v => Except.ok (Json.arr [v])
            | none => Except.error ParseErr.failedToParse


/-- The fallback sequence of the claim, in the claim's order; the cleaned
input is tried directly first, then each fallback. -/
def parseAIStrategies (clean : List Char) : List (Option Json) :=
  [jsonParse clean,
   arrayFixResult clean,
   ndjsonResult clean,
   regexObjResult clean,
   (jsonParse clean).map (fun v => Json.arr [v])]

def parseAIResponseSpec : JsInput → Except ParseErr Json
  | JsInput.nonString => Except.error ParseErr.notAString
  | JsInput.str response =>
    let clean := trimJS (stripFences response)
    match firstSome (parseAIStrategies clean) with
    | some v => Except.ok v
    | none => Except.error ParseErr.failedToParse

/-- C3: `parseAIResponse` throws on non-string input; returns exactly the
`JSON.parse` of the fence-stripped and trimmed input when that is valid
JSON; otherwise returns the first success of the fallback sequence
(array-substring extraction with bracket/comma fixes, NDJSON parsing,
regex object extraction, wrapping a single parsed value in an array); and
throws exactly when every fallback fails. -/
theorem C3_parseAIResponse_fallbacks :
    ∀ v, parseAIResponse v = parseAIResponseSpec v := by
  intro v
  cases v with
  | nonString => rfl
  | str response =>
    unfold parseAIResponse parseAIResponseSpec parseAIStrategies
    dsimp only
    cases h1 : jsonParse (trimJS (stripFences response)) with
    | some v => simp [firstSome, h1]
    | none =>
      cases h2 : arrayFixResult (trimJS (stripFences response)) with
      | some v => simp [firstSome, h1, h2]
      | none =>
        cases h3 : ndjsonResult (trimJS (stripFences response)) with
        | some v => simp [firstSome, h1, h2, h3]
        | none =>
          cases h4 : regexObjResult (trimJS (stripFences response)) with
          | some v => simp [firstSome, h1, h2, h3, h4]
          | none => simp [firstSome, h1, h2, h3, h4]

/- ### The margin pipeline orchestrator (components/margin-loader-sequence.tsx)

`runStep(i)` posts to step `i`'s endpoint; on a non-ok or thrown response it
marks the step `error` and stops; on success it stores the parsed response
in the accumulator and schedules `runStep(i + 1)`; past the last step
`finalizeAndReturn` assembles the final record and posts it to
`/api/margin-report/save` (part_007), which upserts into `margin_analyses`
keyed by `runId` and user with status "completed".  `handleRetry` finds the
first step whose status is `error`, resets it to pending, and calls
`runStep` at that index.  The environment `env i` is the outcome of the
HTTP call for step `i`: `some r` for an ok response parsed to `r`, `none`
for a failure; the model is the synchronous skeleton of this asynchronous
code, with `trace` the list of steps whose requests were issued, in order. -/

inductive StepId where
  | pricing
  | costs
  | leakage
  | segments
  | recommendations
deriving DecidableEq

def MARGIN_STEPS : List StepId :=
  [StepId.pricing, StepId.costs, StepId.leakage, StepId.segments, StepId.recommendations]

def stepEndpoint : StepId → String
  | StepId.pricing => "/api/margin/pricing"
  | StepId.costs => "/api/margin/costs"
  | StepId.leakage => "/api/margin/leakage"
  | StepId.segments => "/api/margin/segments"
  | StepId.recommendations => "/api/margin/recommendations"

inductive StepStatus where
  | pending
  | loading
  | success
  | error
deriving DecidableEq

structure RunRes (α : Type) where
  statuses : StepId → StepStatus
  acc : StepId → Option α
  trace : List StepId

def updStatus (f : StepId → StepStatus) (s : StepId) (v : StepStatus) : StepId → StepStatus :=
  fun t => if t = s then v else f t

def updAcc {α : Type} (f : StepId → Option α) (s : StepId) (v : Option α) :
    StepId → Option α :=
  fun t => if t = s then v else f t

def runSteps {α : Type} (env : Nat → Option α) :
    List StepId → Nat → (StepId → StepStatus) → (StepId → Option α) → RunRes α
  | [], _, st, acc => ⟨st, acc, []⟩
  | s :: rest, i, st, acc =>
    match env i with
    | some r =>
      let res := runSteps env rest (i + 1) (updStatus st s StepStatus.success)
        (updAcc acc s (some r))
      ⟨res.statuses, res.acc, s :: res.trace⟩
    | none => ⟨updStatus st s StepStatus.error, acc, [s]⟩

def runPipeline {α : Type} (env : Nat → Option α) : RunRes α :=
  runSteps env MARGIN_STEPS 0 (fun _ => StepStatus.pending) (fun _ => none)

def firstFailIdx {α : Type} (env : Nat → Option α) : Option Nat :=
  if (env 0).isNone then some 0
  else if (env 1).isNone then some 1
  else if (env 2).isNone then some 2
  else if (env 3).isNone then some 3
  else if (env 4).isNone then some 4
  else none

/-- C2: a run issues its HTTP steps in the fixed order pricing, costs,
leakage, segments, recommendations; the issued steps are exactly the prefix
through the first failing step (all five when none fails), so step `i + 1`
is issued only after step `i` returned ok, and after a failure no later
step is issued until a retry. -/
theorem C2_pipeline_sequential {α : Type} (env : Nat → Option α) :
    (runPipeline env).trace =
      MARGIN_STEPS.take
        (match firstFailIdx env with
         | some i => i + 1
         | none => MARGIN_STEPS.length) := by
  rcases h0 : env 0 with _ | r0 <;>
  rcases h1 : env 1 with _ | r1 <;>
  rcases h2 : env 2 with _ | r2 <;>
  rcases h3 : env 3 with _ | r3 <;>
  rcases h4 : env 4 with _ | r4 <;>
  simp [runPipeline, runSteps, MARGIN_STEPS, firstFailIdx, h0, h1, h2, h3, h4]

/- ### C4: finalizeAndReturn and the report save endpoint

`FinalRecord` keeps the five per-step fields and the meta block; the
further derived fields of `finalizeAndReturn` (remediation_suggestions,
severity_summary, sql_queries, sample blocks) are projections of the same
accumulator that no claim mentions.  The `acc.pricing ?? acc.pricing_raw ??
... ?? \x7b\x7d` chains reduce to `(acc s).getD dflt` because `runStep` only
ever writes the key `step.id`.  Timestamps are not modelled. -/

structure FinalMeta where
  fileId : String
  runId : Option String
deriving DecidableEq

structure FinalRecord (α : Type) where
  pricing : α
  costs : α
  leakage : α
  segments : α
  recommendations : α
  meta : FinalMeta
deriving DecidableEq

def buildFinalResults {α : Type} (acc : StepId → Option α) (dflt : α)
    (fileId : String) (runId : Option String) : FinalRecord α :=
  ⟨(acc StepId.pricing).getD dflt,
   (acc StepId.costs).getD dflt,
   (acc StepId.leakage).getD dflt,
   (acc StepId.segments).getD dflt,
   (acc StepId.recommendations).getD dflt,
   ⟨fileId, runId⟩⟩

structure MarginDoc (α : Type) where
  runId : String
  userId : String
  analysis : FinalRecord α
  status : String
deriving DecidableEq

def upsertMarginDoc {α : Type} :
    List (MarginDoc α) → String → String → FinalRecord α → List (MarginDoc α)
  | [], runId, uid, analysis => [⟨runId, uid, analysis, "completed"⟩]
  | d :: rest, runId, uid, analysis =>
    if d.runId = runId ∧ d.userId = uid then
      ⟨d.runId, d.userId, analysis, "completed"⟩ :: rest
    else d :: upsertMarginDoc rest runId uid analysis

def findMarginReport {α : Type} (db : List (MarginDoc α)) (runId uid : String) :
    Option (MarginDoc α) :=
  db.find? (fun d => d.runId == runId && d.userId == uid)

def marginReportSavePost {α : Type} (db : List (MarginDoc α)) (uid : String)
    (runId : String) (analysis : Option (FinalRecord α)) :
    Except Nat (List (MarginDoc α)) :=
  if runId = "" then Except.error 400
  else
    match analysis with
    | none => Except.error 400
    | some a => Except.ok (upsertMarginDoc db runId uid a)

theorem findMarginReport_upsert {α : Type} (db : List (MarginDoc α))
    (r u : String) (a : FinalRecord α) :
    findMarginReport (upsertMarginDoc db r u a) r u = some ⟨r, u, a, "completed"⟩ := by
  induction db with
  | nil => simp [upsertMarginDoc, findMarginReport, List.find?]
  | cons d rest ih =>
    by_cases h : d.runId = r ∧ d.userId = u
    · simp [upsertMarginDoc, h, findMarginReport, List.find?, h.1, h.2]
    · rw [Decidable.not_and_iff_or_not] at h
      rcases h with h | h <;>
        simp_all [upsertMarginDoc, findMarginReport, List.find?]

/-- C4: when all five steps succeed, the assembled final record's pricing,
costs, leakage, segments and recommendations fields are exactly the stored
step responses, and saving persists that record under the run identifier —
an upsert keyed by `runId` and user with status "completed". -/
theorem C4_finalize_and_persist {α : Type} (env : Nat → Option α)
    (r0 r1 r2 r3 r4 dflt : α) (fileId runId uid : String)
    (db : List (MarginDoc α))
    (h0 : env 0 = some r0) (h1 : env 1 = some r1) (h2 : env 2 = some r2)
    (h3 : env 3 = some r3) (h4 : env 4 = some r4) (hrun : runId ≠ "") :
    let fr := buildFinalResults (runPipeline env).acc dflt fileId (some runId)
    fr.pricing = r0 ∧ fr.costs = r1 ∧ fr.leakage = r2 ∧ fr.segments = r3 ∧
      fr.recommendations = r4 ∧
      marginReportSavePost db uid runId (some fr) =
        Except.ok (upsertMarginDoc db runId uid fr) ∧
      findMarginReport (upsertMarginDoc db runId uid fr) runId uid =
        some ⟨runId, uid, fr, "completed"⟩ := by
  refine ⟨?_, ?_, ?_, ?_, ?_, ?_, ?_⟩
  · simp [buildFinalResults, runPipeline, runSteps, MARGIN_STEPS, h0, h1, h2, h3, h4, updAcc]
  · simp [buildFinalResults, runPipeline, runSteps, MARGIN_STEPS, h0, h1, h2, h3, h4, updAcc]
  · simp [buildFinalResults, runPipeline, runSteps, MARGIN_STEPS, h0, h1, h2, h3, h4, updAcc]
  · simp [buildFinalResults, runPipeline, runSteps, MARGIN_STEPS, h0, h1, h2, h3, h4, updAcc]
  · simp [buildFinalResults, runPipeline, runSteps, MARGIN_STEPS, h0, h1, h2, h3, h4, updAcc]
  · simp [marginReportSavePost, hrun]
  · exact findMarginReport_upsert db runId uid _

/- ### C9: handleRetry -/

def firstErrorIdx (st : StepId → StepStatus) : Option Nat :=
  if st StepId.pricing = StepStatus.error then some 0
  else if st StepId.costs = StepStatus.error then some 1
  else if st StepId.leakage = StepStatus.error then some 2
  else if st StepId.segments = StepStatus.error then some 3
  else if st StepId.recommendations = StepStatus.error then some 4
  else none

def handleRetry {α : Type} (env2 : Nat → Option α) (r : RunRes α) : RunRes α :=
  match firstErrorIdx r.statuses with
  | none => r
  | some i =>
    let st1 :=
      match MARGIN_STEPS[i]? with
      | some s => updStatus r.statuses s StepStatus.pending
      | none => r.statuses
    runSteps env2 (MARGIN_STEPS.drop i) i st1 r.acc

theorem runSteps_acc_frame {α : Type} (env : Nat → Option α) :
    ∀ (steps : List StepId) (i : Nat) st acc s, s ∉ steps →
      (runSteps env steps i st acc).acc s = acc s := by
  intro steps
  induction steps with
  | nil => intro i st acc s h; rfl
  | cons t rest ih =>
    intro i st acc s h
    simp only [List.mem_cons, not_or] at h
    cases he : env i with
    | some r =>
      simp only [runSteps, he]
      rw [ih _ _ _ _ h.2]
      simp [updAcc, h.1]
    | none => simp [runSteps, he]

theorem runSteps_trace_subset {α : Type} (env : Nat → Option α) :
    ∀ (steps : List StepId) (i : Nat) st acc s,
      s ∈ (runSteps env steps i st acc).trace → s ∈ steps := by
  intro steps
  induction steps with
  | nil => intro i st acc s h; simp [runSteps] at h
  | cons t rest ih =>
    intro i st acc s h
    cases he : env i with
    | some r =>
      simp only [runSteps, he, List.mem_cons] at h
      rcases h with h | h
      · simp [h]
      · exact List.mem_cons_of_mem _ (ih _ _ _ _ h)
    | none =>
      simp only [runSteps, he, List.mem_singleton] at h
      simp [h]
  
theorem runSteps_trace_head {α : Type} (env : Nat → Option α)
    (t : StepId) (rest : List StepId) (i : Nat) (st : StepId → StepStatus)
    (acc : StepId → Option α) :
    (runSteps env (t :: rest) i st acc).trace.head? = some t := by
  cases he : env i <;> simp [runSteps, he]

theorem handleRetry_trace_head {α : Type} (env2 : Nat → Option α) (r : RunRes α)
    (i : Nat) (hi : firstErrorIdx r.statuses = some i) (t : StepId)
    (rest : List StepId) (hdrop : MARGIN_STEPS.drop i = t :: rest) :
    (handleRetry env2 r).trace.head? = some t := by
  unfold handleRetry
  rw [hi]
  dsimp only
  rw [hdrop]
  exact runSteps_trace_head env2 t rest i _ r.acc

theorem handleRetry_frame {α : Type} (env2 : Nat → Option α) (r : RunRes α)
    (i : Nat) (hi : firstErrorIdx r.statuses = some i) (s : StepId)
    (hs : s ∉ MARGIN_STEPS.drop i) :
    (handleRetry env2 r).acc s = r.acc s ∧ s ∉ (handleRetry env2 r).trace := by
  unfold handleRetry
  rw [hi]
  dsimp only
  constructor
  · exact runSteps_acc_frame env2 _ _ _ _ _ hs
  · intro hmem
    exact hs (runSteps_trace_subset env2 _ _ _ _ _ hmem)

theorem not_isNone_some {α : Type} (o : Option α) (h : ¬ o.isNone = true) :
    ∃ r, o = some r := by
  cases o with
  | none => simp at h
  | some r => exact ⟨r, rfl⟩

/-- C9: after a failed run, retry resumes execution at the first step whose
status is error; the accumulated results of the steps that already
succeeded are unchanged and those steps are not re-executed. -/
theorem C9_retry_resumes_at_first_error {α : Type} (env env2 : Nat → Option α)
    (i : Nat) (hfail : firstFailIdx env = some i) :
    ((handleRetry env2 (runPipeline env)).trace.head? = MARGIN_STEPS[i]?) ∧
    ∀ s, (runPipeline env).statuses s = StepStatus.success →
      ((handleRetry env2 (runPipeline env)).acc s = (runPipeline env).acc s ∧
       s ∉ (handleRetry env2 (runPipeline env)).trace) := by
  unfold firstFailIdx at hfail
  split_ifs at hfail with g0 g1 g2 g3 g4
  · obtain rfl : (0 : Nat) = i := by simpa using hfail
    have he0 : env 0 = none := by simpa using g0
    have hfe : firstErrorIdx (runPipeline env).statuses = some 0 := by
      simp [runPipeline, runSteps, MARGIN_STEPS, he0, firstErrorIdx, updStatus]
    refine ⟨?_, fun s hs => handleRetry_frame env2 _ _ hfe s ?_⟩
    · simpa [MARGIN_STEPS] using
        handleRetry_trace_head env2 _ _ hfe StepId.pricing _ rfl
    · cases s <;> simp_all [runPipeline, runSteps, MARGIN_STEPS, he0, updStatus]
  · obtain rfl : (1 : Nat) = i := by simpa using hfail
    obtain ⟨r0, hr0⟩ := not_isNone_some _ g0
    have he1 : env 1 = none := by simpa using g1
    have hfe : firstErrorIdx (runPipeline env).statuses = some 1 := by
      simp [runPipeline, runSteps, MARGIN_STEPS, hr0, he1, firstErrorIdx, updStatus]
    refine ⟨?_, fun s hs => handleRetry_frame env2 _ _ hfe s ?_⟩
    · simpa [MARGIN_STEPS] using
        handleRetry_trace_head env2 _ _ hfe StepId.costs _ rfl
    · cases s <;> simp_all [runPipeline, runSteps, MARGIN_STEPS, hr0, he1, updStatus]
  · obtain rfl : (2 : Nat) = i := by simpa using hfail
    obtain ⟨r0, hr0⟩ := not_isNone_some _ g0
    obtain ⟨r1, hr1⟩ := not_isNone_some _ g1
    have he2 : env 2 = none := by simpa using g2
    have hfe : firstErrorIdx (runPipeline env).statuses = some 2 := by
      simp [runPipeline, runSteps, MARGIN_STEPS, hr0, hr1, he2, firstErrorIdx, updStatus]
    refine ⟨?_, fun s hs => handleRetry_frame env2 _ _ hfe s ?_⟩
    · simpa [MARGIN_STEPS] using
        handleRetry_trace_head env2 _ _ hfe StepId.leakage _ rfl
    · cases s <;> simp_all [runPipeline, runSteps, MARGIN_STEPS, hr0, hr1, he2, updStatus]
  · obtain rfl : (3 : Nat) = i := by simpa using hfail
    obtain ⟨r0, hr0⟩ := not_isNone_some _ g0
    obtain ⟨r1, hr1⟩ := not_isNone_some _ g1
    obtain ⟨r2, hr2⟩ := not_isNone_some _ g2
    have he3 : env 3 = none := by simpa using g3
    have hfe : firstErrorIdx (runPipeline env).statuses = some 3 := by
      simp [runPipeline, runSteps, MARGIN_STEPS, hr0, hr1, hr2, he3, firstErrorIdx, updStatus]
    refine ⟨?_, fun s hs => handleRetry_frame env2 _ _ hfe s ?_⟩
    · simpa [MARGIN_STEPS] using
        handleRetry_trace_head env2 _ _ hfe StepId.segments _ rfl
    · cases s <;> simp_all [runPipeline, runSteps, MARGIN_STEPS, hr0, hr1, hr2, he3, updStatus]
  · obtain rfl : (4 : Nat) = i := by simpa using hfail
    obtain ⟨r0, hr0⟩ := not_isNone_some _ g0
    obtain ⟨r1, hr1⟩ := not_isNone_some _ g1
    obtain ⟨r2, hr2⟩ := not_isNone_some _ g2
    obtain ⟨r3, hr3⟩ := not_isNone_some _ g3
    have he4 : env 4 = none := by simpa using g4
    have hfe : firstErrorIdx (runPipeline env).statuses = some 4 := by
      simp [runPipeline, runSteps, MARGIN_STEPS, hr0, hr1, hr2, hr3, he4, firstErrorIdx,
        updStatus]
    refine ⟨?_, fun s hs => handleRetry_frame env2 _ _ hfe s ?_⟩
    · simpa [MARGIN_STEPS] using
        handleRetry_trace_head env2 _ _ hfe StepId.recommendations _ rfl
    · cases s <;>
        simp_all [runPipeline, runSteps, MARGIN_STEPS, hr0, hr1, hr2, hr3, he4, updStatus]

/- ### C5: the leakage classification rules

The leakage step's payload (margin-loader-sequence.tsx lines 92-95, and the
default of part_004 line 243) fixes the rules `net_price < cost`,
`margin_pct < 5`, `discount_pct > 50`; `margin_pct` is defined by the costs
prompt (costs/route.ts line 256) as `(net_price - cost) / net_price * 100`.
`leakageRuleHolds` is the disjunction of the three rules read as predicates
over exact rationals. -/

/-- The margin formula of the costs prompt, `(net_price - cost) / net_price
* 100`, over exact rationals.  Lean's total division makes `0 / 0 = 0`
where JavaScript arithmetic would give `NaN`, so the claim's theorem below
assumes a positive realized price rather than leaning on that convention. -/
def margin_pct (net cost : ℚ) : ℚ := (net - cost) / net * 100

def leakageRuleHolds (net cost discount : ℚ) : Bool :=
  decide (net < cost) || decide (margin_pct net cost < 5) || decide (50 < discount)

/-- C5: under the leakage rules, a sale with positive realized price is
classified as margin leakage whenever the net price is at or below cost or
the discount exceeds the 50% threshold; in particular net price exactly
equal to cost counts (via the margin rule: its margin percentage is 0 < 5,
even though the price rule `net_price < cost` itself is strict). -/
theorem C5_leakage_boundary (net cost discount : ℚ) (hpos : 0 < net)
    (h : net ≤ cost ∨ 50 < discount) :
    leakageRuleHolds net cost discount = true := by
  rcases h with h | h
  · rcases lt_or_eq_of_le h with hlt | heq
    · simp [leakageRuleHolds, hlt]
    · have hm : margin_pct net cost = 0 := by
        simp [margin_pct, ← heq]
      simp [leakageRuleHolds, hm]
  · simp [leakageRuleHolds, h]

theorem C5_leakage_boundary_witness :
    0 < (100 : ℚ) ∧ ((100 : ℚ) ≤ 100 ∨ 50 < (0 : ℚ)) ∧
      leakageRuleHolds 100 100 0 = true :=
  ⟨by norm_num, Or.inl le_rfl,
   C5_leakage_boundary 100 100 0 (by norm_num) (Or.inl le_rfl)⟩

theorem C4_finalize_witness :
    let env : Nat → Option Nat := fun i => some i
    let fr := buildFinalResults (runPipeline env).acc 99 "file1" (some "run1")
    fr.pricing = 0 ∧ fr.costs = 1 ∧ fr.leakage = 2 ∧ fr.segments = 3 ∧
      fr.recommendations = 4 ∧
      marginReportSavePost ([] : List (MarginDoc Nat)) "user1" "run1" (some fr) =
        Except.ok (upsertMarginDoc [] "run1" "user1" fr) ∧
      findMarginReport (upsertMarginDoc [] "run1" "user1" fr) "run1" "user1" =
        some ⟨"run1", "user1", fr, "completed"⟩ :=
  C4_finalize_and_persist (fun i => some i) 0 1 2 3 4 99 "file1" "run1" "user1" []
    rfl rfl rfl rfl rfl (by decide)

theorem C9_retry_witness :
    let env : Nat → Option Nat := fun i => if i < 2 then some i else none
    let env2 : Nat → Option Nat := fun i => some (10 + i)
    ((handleRetry env2 (runPipeline env)).trace.head? = MARGIN_STEPS[2]?) ∧
    ∀ s, (runPipeline env).statuses s = StepStatus.success →
      ((handleRetry env2 (runPipeline env)).acc s = (runPipeline env).acc s ∧
       s ∉ (handleRetry env2 (runPipeline env)).trace) :=
  C9_retry_resumes_at_first_error (fun i => if i < 2 then some i else none)
    (fun i => some (10 + i)) 2 rfl

/- ### The combine service (combine/route.js)

The POST handler loads the session's combine preferences, snapshots the
session's files uploaded no later than the request start, computes
`sourceFileIds` (the files' ids, sorted as strings and joined by commas),
and, if a combined file with the same user, session and `sourceFileIds`
already exists, returns its id without calling the model or storing
anything.  Otherwise it prompts the model, parses the reply with
`parseAIResponse`, requires an array, and stores a new combined file whose
metadata records `isCombined` and `sourceFileIds`.  The Excel serialization
of the rows (exceljs) and the per-session in-memory lock are not modelled;
a file document carries only its claim-relevant metadata. -/

def strLtB : List Char → List Char → Bool
  | [], [] => false
  | [], _ :: _ => true
  | _ :: _, [] => false
  | c :: cs, d :: ds =>
    if c.toNat < d.toNat then true
    else if d.toNat < c.toNat then false
    else strLtB cs ds

def insertSorted (x : String) : List String → List String
  | [] => [x]
  | y :: ys => if strLtB x.data y.data then x :: y :: ys else y :: insertSorted x ys

def sortJS (l : List String) : List String := l.foldr insertSorted []

structure GFile where
  id : String
  userId : String
  sessionId : String
  uploadedAt : Nat
  isCombined : Bool
  sourceFileIds : Option String
deriving DecidableEq

def recentFiles (files : List GFile) (uid sid : String) (now : Nat) : List GFile :=
  files.filter (fun f => f.userId == uid && f.sessionId == sid && decide (f.uploadedAt ≤ now))

def computeFileIds (files : List GFile) (uid sid : String) (now : Nat) : String :=
  String.intercalate "," (sortJS ((recentFiles files uid sid now).map (fun f => f.id)))

def findExistingCombined (files : List GFile) (uid sid fids : String) : Option GFile :=
  files.find? (fun f => f.userId == uid && f.sessionId == sid &&
    f.sourceFileIds == some fids && f.isCombined)

inductive CombineErr where
  | apiError
  | parseFailed
  | notArray
deriving DecidableEq

structure CombineOut where
  result : Except CombineErr String
  files : List GFile
  llmCalled : Bool

def combinePost (files : List GFile) (uid sid : String) (now : Nat)
    (freshId : String) (llmContent : Option (List Char)) : CombineOut :=
  let fids := computeFileIds files uid sid now
  match findExistingCombined files uid sid fids with
  | some ex => ⟨Except.ok ex.id, files, false⟩
  | none =>
    match llmContent with
    | none => ⟨Except.error CombineErr.apiError, files, true⟩
    | some content =>
      match parseAIResponse (JsInput.str content) with
      | Except.error _ => ⟨Except.error CombineErr.parseFailed, files, true⟩
      | Except.ok j =>
        match j with
        | Json.arr _ =>
          ⟨Except.ok freshId, files ++ [⟨freshId, uid, sid, now, true, some fids⟩], true⟩
        | _ => ⟨Except.error CombineErr.notArray, files, true⟩

/-- C6: when a combined file for the same user, the same session and
exactly the request's sorted source-file-id string already exists, the
combine POST returns that file's id (HTTP 200), does not call the LLM, and
stores no new file. -/
theorem C6_combine_idempotent (files : List GFile) (uid sid freshId : String)
    (now : Nat) (llmContent : Option (List Char)) (ex : GFile)
    (hex : findExistingCombined files uid sid (computeFileIds files uid sid now) = some ex) :
    combinePost files uid sid now freshId llmContent =
      ⟨Except.ok ex.id, files, false⟩ := by
  unfold combinePost
  dsimp only
  rw [hex]

theorem C6_combine_idempotent_witness :
    combinePost
      [⟨"a", "u", "s", 0, false, none⟩, ⟨"c", "u", "s", 1, true, some "a,c"⟩]
      "u" "s" 5 "fresh" none =
      ⟨Except.ok "c",
       [⟨"a", "u", "s", 0, false, none⟩, ⟨"c", "u", "s", 1, true, some "a,c"⟩],
       false⟩ :=
  C6_combine_idempotent
    [⟨"a", "u", "s", 0, false, none⟩, ⟨"c", "u", "s", 1, true, some "a,c"⟩]
    "u" "s" "fresh" 5 none ⟨"c", "u", "s", 1, true, some "a,c"⟩ (by decide)

/- ### The cost-analysis endpoint (margin/costs/route.ts)

The handler validates the fileId, looks the file up by id and owning user
(404 when absent), rejects empty tables (400), calls the model (500 when
the SDK throws), then `JSON.parse`s the reply text; on parse failure it
substitutes the hard-coded placeholder analysis, persists
`{analysis, parsed}` into the `analyses` collection keyed by file and user,
and responds 200 with status "success" spreading the parsed analysis.  A
file document carries its parsed table (the csv-parse/XLSX byte-level
parsing is external-library plumbing); `Math.floor(n * 0.2)` and kin are
exact-rational floors `n / 5`, `n / 10`, `3 * n / 10`, `6 * n / 10`;
timestamps are not modelled.  `mergeSpread` reproduces JavaScript object
spread: later keys override, at the first occurrence's position. -/

structure TFile where
  id : String
  userId : String
  filename : String
  columns : List String
  rows : List (List (String × String))

structure AnalysisDoc where
  fileId : String
  userId : String
  analysis : String
  parsed : Json

def upsertAnalysis : List AnalysisDoc → String → String → String → Json → List AnalysisDoc
  | [], fid, uid, raw, parsed => [⟨fid, uid, raw, parsed⟩]
  | d :: rest, fid, uid, raw, parsed =>
    if d.fileId = fid ∧ d.userId = uid then ⟨d.fileId, d.userId, raw, parsed⟩ :: rest
    else d :: upsertAnalysis rest fid uid raw parsed

def findAnalysis (db : List AnalysisDoc) (fid uid : String) : Option AnalysisDoc :=
  db.find? (fun d => d.fileId == fid && d.userId == uid)

def rowToJson (r : List (String × String)) : Json :=
  Json.obj (r.map (fun p => (p.1, Json.str p.2)))

def worstPerformer (i : Nat) (row : List (String × String)) : Json :=
  let pid := (row.lookup "product_id").getD ""
  Json.obj [
    ("product_id", Json.str (if pid = "" then "P" ++ toString (i + 1) else pid)),
    ("margin_pct", Json.num (15 - 3 * (i : ℚ))),
    ("revenue_impact", Json.num (1000 + 500 * (i : ℚ))),
    ("cost", Json.num (80 + 10 * (i : ℚ))),
    ("net_price", Json.num (95 + 5 * (i : ℚ)))]

def costsPlaceholder (rows : List (List (String × String))) : Json :=
  let n := rows.length
  Json.obj [
    ("total_products", Json.num (n : ℚ)),
    ("avg_margin_pct", Json.num 25),
    ("negative_margin_count", Json.num 0),
    ("below_target_count", Json.num ((n / 5 : Nat) : ℚ)),
    ("margin_distribution", Json.obj [
      ("negative", Json.num 0),
      ("0-10%", Json.num ((n / 10 : Nat) : ℚ)),
      ("10-30%", Json.num ((3 * n / 10 : Nat) : ℚ)),
      ("30%+", Json.num ((6 * n / 10 : Nat) : ℚ))]),
    ("worst_performers", Json.arr ((rows.take 5).mapIdx worstPerformer)),
    ("cost_insights", Json.arr [
      Json.str "Cost margin analysis completed",
      Json.str "Review products with margins below target threshold"]),
    ("sql", Json.str "SELECT product_id, cost, net_price, (net_price - cost) / net_price * 100 as margin_pct FROM pricing_data WHERE (net_price - cost) / net_price * 100 < 10"),
    ("samples", Json.arr ((rows.take 5).map rowToJson))]

def objFields : Json → List (String × Json)
  | Json.obj fs => fs
  | _ => []

def mergeSpread (base extra : List (String × Json)) : List (String × Json) :=
  base.map (fun p =>
    match extra.lookup p.1 with
    | some v => (p.1, v)
    | none => p) ++
  extra.filter (fun q => (base.lookup q.1).isNone)

def jGet (j : Json) (k : String) : Option Json := (objFields j).lookup k

structure CostsOut where
  status : Nat
  body : Json
  analyses : List AnalysisDoc
  llmCalled : Bool

def costsPost (files : List TFile) (analyses : List AnalysisDoc) (uid fileId : String)
    (validId : Bool) (reply : Except Unit (Option String)) : CostsOut :=
  if ¬ validId then
    ⟨400, Json.obj [("error", Json.str "Invalid or missing fileId")], analyses, false⟩
  else
    match files.find? (fun f => f.id == fileId && f.userId == uid) with
    | none =>
      ⟨404, Json.obj [("error", Json.str "File not found or access denied")],
       analyses, false⟩
    | some f =>
      if f.columns.isEmpty || f.rows.isEmpty then
        ⟨400, Json.obj [("error", Json.str "No valid data found in file")], analyses, false⟩
      else
        match reply with
        | Except.error _ =>
          ⟨500, Json.obj [("error", Json.str "Vertex AI error")], analyses, true⟩
        | Except.ok otext =>
          let analysisRaw := otext.getD "No analysis generated"
          let parsedAnalysis := (jsonParse analysisRaw.data).getD (costsPlaceholder f.rows)
          ⟨200,
           Json.obj
             (mergeSpread
               [("status", Json.str "success"), ("step", Json.str "cost_analysis")]
               (objFields parsedAnalysis)),
           upsertAnalysis analyses fileId uid analysisRaw parsedAnalysis, true⟩

theorem findAnalysis_upsert (db : List AnalysisDoc) (fid uid raw : String) (p : Json) :
    findAnalysis (upsertAnalysis db fid uid raw p) fid uid = some ⟨fid, uid, raw, p⟩ := by
  induction db with
  | nil => simp [upsertAnalysis, findAnalysis, List.find?]
  | cons d rest ih =>
    by_cases h : d.fileId = fid ∧ d.userId = uid
    · simp [upsertAnalysis, h, findAnalysis, List.find?, h.1, h.2]
    · rw [Decidable.not_and_iff_or_not] at h
      rcases h with h | h <;>
        simp_all [upsertAnalysis, findAnalysis, List.find?]

/-- C7: when the model reply is not parseable as JSON, the costs endpoint
reports no error: it responds 200 with status "success" carrying the
hard-coded placeholder (avg_margin_pct 25, negative_margin_count 0,
distribution and below_target_count functions of the row count alone,
fabricated worst_performers), and persists that placeholder as the stored
parsed analysis. -/
theorem C7_costs_fallback (files : List TFile) (analyses : List AnalysisDoc)
    (uid fileId : String) (f : TFile) (t : String)
    (hfind : files.find? (fun g => g.id == fileId && g.userId == uid) = some f)
    (hcols : f.columns.isEmpty = false) (hrows : f.rows.isEmpty = false)
    (hparse : jsonParse t.data = none) :
    (costsPost files analyses uid fileId true (Except.ok (some t))).status = 200 ∧
    jGet (costsPost files analyses uid fileId true (Except.ok (some t))).body "status" =
      some (Json.str "success") ∧
    jGet (costsPost files analyses uid fileId true (Except.ok (some t))).body
      "avg_margin_pct" = some (Json.num 25) ∧
    jGet (costsPost files analyses uid fileId true (Except.ok (some t))).body
      "negative_margin_count" = some (Json.num 0) ∧
    jGet (costsPost files analyses uid fileId true (Except.ok (some t))).body
      "below_target_count" = some (Json.num ((f.rows.length / 5 : Nat) : ℚ)) ∧
    jGet (costsPost files analyses uid fileId true (Except.ok (some t))).body
      "margin_distribution" = some (Json.obj [
        ("negative", Json.num 0),
        ("0-10%", Json.num ((f.rows.length / 10 : Nat) : ℚ)),
        ("10-30%", Json.num ((3 * f.rows.length / 10 : Nat) : ℚ)),
        ("30%+", Json.num ((6 * f.rows.length / 10 : Nat) : ℚ))]) ∧
    jGet (costsPost files analyses uid fileId true (Except.ok (some t))).body
      "worst_performers" = some (Json.arr ((f.rows.take 5).mapIdx worstPerformer)) ∧
    findAnalysis (costsPost files analyses uid fileId true (Except.ok (some t))).analyses
      fileId uid = some ⟨fileId, uid, t, costsPlaceholder f.rows⟩ := by
  unfold costsPost
  rw [hfind]
  simp only [hcols, hrows, Bool.or_self, if_neg, not_true_eq_false, if_false,
    Option.getD_some, hparse, Option.getD_none]
  refine ⟨rfl, ?_, ?_, ?_, ?_, ?_, ?_, ?_⟩
  · simp [jGet, objFields, mergeSpread, costsPlaceholder, List.lookup]
  · simp [jGet, objFields, mergeSpread, costsPlaceholder, List.lookup]
  · simp [jGet, objFields, mergeSpread, costsPlaceholder, List.lookup]
  · simp [jGet, objFields, mergeSpread, costsPlaceholder, List.lookup]
  · simp [jGet, objFields, mergeSpread, costsPlaceholder, List.lookup]
  · simp [jGet, objFields, mergeSpread, costsPlaceholder, List.lookup]
  · exact findAnalysis_upsert analyses fileId uid t (costsPlaceholder f.rows)

/-- C8: a request with a well-formed fileId that matches no file owned by
the authenticated user gets a 404, no model call, and no write to the
analyses collection. -/
theorem C8_unowned_file_404 (files : List TFile) (analyses : List AnalysisDoc)
    (uid fileId : String) (reply : Except Unit (Option String))
    (hnone : ∀ f ∈ files, ¬(f.id = fileId ∧ f.userId = uid)) :
    (costsPost files analyses uid fileId true reply).status = 404 ∧
    (costsPost files analyses uid fileId true reply).llmCalled = false ∧
    (costsPost files analyses uid fileId true reply).analyses = analyses := by
  have hfind : files.find? (fun f => f.id == fileId && f.userId == uid) = none := by
    rw [List.find?_eq_none]
    intro f hf
    simpa using hnone f hf
  unfold costsPost
  rw [hfind]
  simp

theorem C7_costs_fallback_witness :
    (costsPost [⟨"f1", "u1", "d.csv", ["product_id"], [[("product_id", "A")]]⟩] []
        "u1" "f1" true (Except.ok (some "nope"))).status = 200 ∧
    jGet (costsPost [⟨"f1", "u1", "d.csv", ["product_id"], [[("product_id", "A")]]⟩] []
        "u1" "f1" true (Except.ok (some "nope"))).body "status" =
      some (Json.str "success") ∧
    jGet (costsPost [⟨"f1", "u1", "d.csv", ["product_id"], [[("product_id", "A")]]⟩] []
        "u1" "f1" true (Except.ok (some "nope"))).body "avg_margin_pct" =
      some (Json.num 25) ∧
    findAnalysis (costsPost [⟨"f1", "u1", "d.csv", ["product_id"], [[("product_id", "A")]]⟩]
        [] "u1" "f1" true (Except.ok (some "nope"))).analyses "f1" "u1" =
      some ⟨"f1", "u1", "nope", costsPlaceholder [[("product_id", "A")]]⟩ :=
  match C7_costs_fallback [⟨"f1", "u1", "d.csv", ["product_id"], [[("product_id", "A")]]⟩]
      [] "u1" "f1" ⟨"f1", "u1", "d.csv", ["product_id"], [[("product_id", "A")]]⟩ "nope"
      rfl rfl rfl rfl with
  | ⟨h1, h2, h3, _, _, _, _, h8⟩ => ⟨h1, h2, h3, h8⟩

theorem C8_unowned_file_404_witness :
    (costsPost [] [] "u9" "f9" true (Except.ok (some "x"))).status = 404 ∧
    (costsPost [] [] "u9" "f9" true (Except.ok (some "x"))).llmCalled = false ∧
    (costsPost [] [] "u9" "f9" true (Except.ok (some "x"))).analyses = [] :=
  C8_unowned_file_404 [] [] "u9" "f9" (Except.ok (some "x")) (by simp)

/- ### Upload and session-preference endpoints (part_002 upload, session/route.js)

The upload handler requires a file and a session id, accepts only
`.xlsx`/`.xls`/`.csv` names (case-insensitive), and stores the file with
metadata `{userId, uploadedAt, sessionId}`.  The session handler upserts
the posted preference fields into `sessionMetadata` by sessionId
(`$set` with spread: fields absent from the request keep their old
values).  The combine service reads them back as
`sessionMetadata?.combineData || false`, `?.joinType || ""`,
`?.customPrompt || ""`; on well-typed stored values those `||` defaults
coincide with `Option.getD` of `false` and `""`. -/

structure UploadMeta where
  userId : String
  uploadedAt : Nat
  sessionId : String
deriving DecidableEq

structure UploadedDoc where
  filename : String
  metadata : UploadMeta
deriving DecidableEq

def lowerCh (c : Char) : Char :=
  if 65 ≤ c.toNat && c.toNat ≤ 90 then Char.ofNat (c.toNat + 32) else c

def charPrefixB : List Char → List Char → Bool
  | [], _ => true
  | _ :: _, [] => false
  | a :: as, b :: bs => a == b && charPrefixB as bs

def charSuffixB (suf l : List Char) : Bool := charPrefixB suf.reverse l.reverse

/-- The upload filter `/\.(xlsx|xls|csv)$/i`. -/
def validUploadName (name : String) : Bool :=
  let ln := name.data.map lowerCh
  charSuffixB ".xlsx".data ln || charSuffixB ".xls".data ln || charSuffixB ".csv".data ln

inductive UploadErr where
  | noFile
  | noSession
  | badType
deriving DecidableEq

def uploadPost (files : List UploadedDoc) (uid : String) (file : Option String)
    (sessionId : Option String) (now : Nat) :
    Except UploadErr (List UploadedDoc × String) :=
  match file with
  | none => Except.error UploadErr.noFile
  | some name =>
    match sessionId with
    | none => Except.error UploadErr.noSession
    | some sid =>
      if ¬ validUploadName name then Except.error UploadErr.badType
      else Except.ok (files ++ [⟨name, ⟨uid, now, sid⟩⟩], name)

structure SessionPrefs where
  combineData : Option Bool
  joinType : Option String
  customPrompt : Option String
deriving DecidableEq

structure SessionDoc where
  sessionId : String
  combineData : Option Bool
  joinType : Option String
  customPrompt : Option String
deriving DecidableEq

def upsertSession : List SessionDoc → String → SessionPrefs → List SessionDoc
  | [], sid, m => [⟨sid, m.combineData, m.joinType, m.customPrompt⟩]
  | d :: rest, sid, m =>
    if d.sessionId = sid then
      ⟨d.sessionId, m.combineData <|> d.combineData, m.joinType <|> d.joinType,
       m.customPrompt <|> d.customPrompt⟩ :: rest
    else d :: upsertSession rest sid m

def readCombinePrefs (db : List SessionDoc) (sid : String) : Bool × String × String :=
  match db.find? (fun d => d.sessionId == sid) with
  | none => (false, "", "")
  | some d => (d.combineData.getD false, d.joinType.getD "", d.customPrompt.getD "")

/-- C10: an accepted upload is stored with metadata recording exactly the
uploading user, the upload time and the supplied session id; and the
combine preferences saved for a session are exactly what the combine
operation reads back for that sessionId, with `false` and `""` when none
were saved. -/
theorem C10_upload_and_session_prefs :
    (∀ (files : List UploadedDoc) (uid name sid : String) (now : Nat),
       validUploadName name = true →
       uploadPost files uid (some name) (some sid) now =
         Except.ok (files ++ [⟨name, ⟨uid, now, sid⟩⟩], name)) ∧
    (∀ (db : List SessionDoc) (sid : String) (m : SessionPrefs),
       db.find? (fun d => d.sessionId == sid) = none →
       readCombinePrefs (upsertSession db sid m) sid =
         (m.combineData.getD false, m.joinType.getD "", m.customPrompt.getD "")) := by
  constructor
  · intro files uid name sid now hv
    simp [uploadPost, hv]
  · intro db sid m hnone
    induction db with
    | nil => simp [upsertSession, readCombinePrefs, List.find?]
    | cons d rest ih =>
      have hd : (d.sessionId == sid) = false := by
        cases h : d.sessionId == sid
        · rfl
        · simp [List.find?, h] at hnone
      have hrest : rest.find? (fun x => x.sessionId == sid) = none := by
        simpa [List.find?, hd] using hnone
      have hd' : ¬ d.sessionId = sid := by simpa using hd
      rw [upsertSession, if_neg hd']
      rw [readCombinePrefs]
      simp only [List.find?, hd]
      have := ih hrest
      rw [readCombinePrefs] at this
      exact this

theorem C10_upload_and_session_prefs_witness :
    (validUploadName "data.csv" = true ∧
     uploadPost [] "user7" (some "data.csv") (some "sess7") 42 =
       Except.ok ([⟨"data.csv", ⟨"user7", 42, "sess7"⟩⟩], "data.csv")) ∧
    (([] : List SessionDoc).find? (fun d => d.sessionId == "sess7") = none ∧
     readCombinePrefs (upsertSession [] "sess7" ⟨some true, some "inner join", none⟩)
       "sess7" = (true, "inner join", "")) :=
  ⟨⟨by decide,
    C10_upload_and_session_prefs.1 [] "user7" "data.csv" "sess7" 42 (by decide)⟩,
   ⟨rfl,
    C10_upload_and_session_prefs.2 [] "sess7" ⟨some true, some "inner join", none⟩ rfl⟩⟩

/- ### Concrete evaluations of the string-processing models

Sanity instances pinning the models to the behavior `JSON.parse` and the
two repair pipelines exhibit on representative inputs. -/

theorem jsonParse_example_object :
    jsonParse ("\x7b\"a\":[1,true,null]\x7d".data) =
      some (Json.obj [("a", Json.arr [Json.num 1, Json.bool true, Json.null])]) := by with_unfolding_all rfl

theorem jsonParse_rejects_trailing_comma :
    jsonParse ("\x7b\"a\":1,\x7d".data) = none := rfl

theorem tryParseJsonWithRepairs_example :
    tryParseJsonWithRepairs ("\x7bfoo: 2,\x7d".data) =
      some (Json.obj [("foo", Json.num 2)]) := by with_unfolding_all rfl

theorem extractFirstJsonObj_skips_prose :
    extractFirstJsonObj ("noise \x7b\"k\":\"v\"\x7d tail".data) =
      some (Json.obj [("k", Json.str "v")]) := rfl

theorem extractFirstJsonObj_string_braces :
    extractFirstJsonObj ("\x7b\"s\":\"br\x7bace\x7d\"\x7d".data) =
      some (Json.obj [("s", Json.str "br\x7bace\x7d")]) := rfl

theorem parseAIResponse_ndjson_example :
    parseAIResponse (JsInput.str ("\x7b\"a\":1\x7d\n\x7b\"b\":2\x7d".data)) =
      Except.ok (Json.arr [Json.obj [("a", Json.num 1)], Json.obj [("b", Json.num 2)]]) := by with_unfolding_all rfl

theorem parseAIResponse_fenced_example :
    parseAIResponse (JsInput.str ("```json\n[\x7b\"a\":1\x7d]\n```".data)) =
      Except.ok (Json.arr [Json.obj [("a", Json.num 1)]]) := by with_unfolding_all rfl

theorem parseAIResponse_error_example :
    parseAIResponse (JsInput.str ("hello".data)) = Except.error ParseErr.failedToParse := rfl
